import Mathlib

/-!
Verification of the archive-to-storage materialization engine
(`h5pxblock/utils.py`): a shallow embedding of the module's operations
and proofs of the spec's testable properties.

Byte payloads are modelled as `List Nat`; paths and archive entry names
are `String`s, with POSIX `os.path.basename` / `os.path.join` embedded
as `pyBasename` / `pyJoin`.  The cloud-side operations are embedded as
generators of event traces (store calls, log calls, worker-pool scope
events), and the local-side operation as a state transformer on the
destination directory that also reports the filesystem operations it
performed.
-/

/-- POSIX `os.path.basename`: the suffix of the string after the last
slash (the whole string when it has no slash). -/
def pyBasename (p : String) : String :=
  String.mk ((p.data.reverse.takeWhile (fun c => c != '/')).reverse)

/-- POSIX `os.path.join` restricted to two arguments, as in
`posixpath.join`: an absolute second component replaces the first;
otherwise the components are glued with a single slash unless the first
is empty or already ends in a slash. -/
def pyJoin (a b : String) : String :=
  if b.data.head? = some '/' then b
  else if a.data = [] ∨ a.data.getLast? = some '/' then a ++ b
  else a ++ "/" ++ b

/-- The sanitization test of `unpack_and_upload_on_cloud`:
`os.path.basename(real_path) in {"", ".", ".."}`. -/
def badBasename (p : String) : Bool :=
  pyBasename p == "" || pyBasename p == "." || pyBasename p == ".."

/-- One archive entry: its relative path inside the container and its
decompressed payload. -/
structure Entry where
  path : String
  data : List Nat
deriving DecidableEq

/-- An uploaded package: its name, whether it passes `is_zipfile`, and
its entries in the container's native listing order. -/
structure Package where
  name : String
  isZip : Bool
  entries : List Entry
deriving DecidableEq

/-- `ZipFile.namelist`: entry names in listing order. -/
def namelist (pkg : Package) : List String :=
  pkg.entries.map (fun e => e.path)

/-- `ZipFile.read(name)`: Python's `ZipFile` resolves a name through its
`NameToInfo` dictionary, in which a later entry with the same name
overwrites an earlier one, so the payload of the last entry bearing the
name is returned. -/
def readByName (pkg : Package) (n : String) : List Nat :=
  match (pkg.entries.filter (fun e => e.path == n)).getLast? with
  | some e => e.data
  | none => []

/-- Observable events of the cloud extraction path: backend-store calls,
log calls, and worker-pool scope boundaries. -/
inductive Event where
  | existsQ (path : String) (res : Bool)
  | listdirQ (path : String)
  | deleteSubmit (path : String)
  | saveSubmit (path : String) (data : List Nat)
  | logInfo (fmt : String) (arg : String)
  | logError (fmt : String) (arg : String)
  | poolOpen (maxWorkers : Nat)
  | poolDrain
deriving DecidableEq

mutual

/-- The backend store's directory tree under a prefix, as reported by
`storage.listdir`: immediate subdirectories and immediate files. -/
inductive STree where
  | node : DirList → List (String × List Nat) → STree

/-- The list of named immediate subdirectories of a store node. -/
inductive DirList where
  | nil : DirList
  | cons : String → STree → DirList → DirList

end

mutual

/-- Trace of `delete_existing_files_cloud` on an existing prefix: check
existence, log, list the directory, submit one delete per file inside a
worker-pool scope that drains on exit, then recurse into each
subdirectory sequentially. -/
def dcTree (maxW : Nat) (path : String) : STree → List Event
  | STree.node ds fs =>
    Event.existsQ path true
      :: Event.logInfo "%s path is being deleted on cloud" path
      :: Event.listdirQ path
      :: Event.poolOpen maxW
      :: (fs.map (fun f => Event.deleteSubmit (pyJoin path f.1))
          ++ Event.poolDrain :: dcDirs maxW path ds)

/-- The recursive calls of `delete_existing_files_cloud` into the
listed subdirectories, in listing order. -/
def dcDirs (maxW : Nat) (path : String) : DirList → List Event
  | DirList.nil => []
  | DirList.cons name t rest =>
      dcTree maxW (pyJoin path name) t ++ dcDirs maxW path rest

end

/-- `delete_existing_files_cloud(storage, path)`: the store's view of
the prefix is `none` when `storage.exists(path)` is false (the call is a
no-op beyond the existence query) and `some tree` otherwise. -/
def delete_existing_files_cloud (maxW : Nat) (path : String) :
    Option STree → List Event
  | none => [Event.existsQ path false]
  | some t => dcTree maxW path t

mutual

/-- All fully-joined keys of files anywhere under the prefix. -/
def fileKeysT (path : String) : STree → List String
  | STree.node ds fs =>
      fs.map (fun f => pyJoin path f.1) ++ fileKeysD path ds

/-- All fully-joined file keys under a list of subdirectories. -/
def fileKeysD (path : String) : DirList → List String
  | DirList.nil => []
  | DirList.cons name t rest =>
      fileKeysT (pyJoin path name) t ++ fileKeysD path rest

end

/-- The save submissions of the upload loop of
`unpack_and_upload_on_cloud`: for each name of the archive's manifest,
join it under the destination prefix and, unless the joined path's
basename is empty, a dot or a dot-dot, submit one `storage.save` of the
bytes read from the archive. -/
def cloudSaves (pkg : Package) (path : String) : List Event :=
  (namelist pkg).filterMap (fun n =>
    if badBasename (pyJoin path n) then none
    else some (Event.saveSubmit (pyJoin path n) (readByName pkg n)))

/-- `unpack_and_upload_on_cloud(package, storage, path)`: abort with a
logged error when the input is not a zip; otherwise delete the existing
prefix contents, then submit the upload tasks inside a worker-pool
scope that drains on exit. -/
def unpack_and_upload_on_cloud (maxW : Nat) (pkg : Package)
    (store : Option STree) (path : String) : List Event :=
  if !pkg.isZip then
    [Event.logError "%s is not a valid zip" pkg.name]
  else
    delete_existing_files_cloud maxW path store
      ++ Event.poolOpen maxW
      :: (cloudSaves pkg path ++ [Event.poolDrain])

/-- Events that are calls into the backend store. -/
def isStoreCall : Event → Bool
  | Event.existsQ _ _ => true
  | Event.listdirQ _ => true
  | Event.deleteSubmit _ => true
  | Event.saveSubmit _ _ => true
  | _ => false

/-- The save submissions of a trace, as key-payload pairs in order. -/
def savesOf (evs : List Event) : List (String × List Nat) :=
  evs.filterMap (fun e =>
    match e with
    | Event.saveSubmit k d => some (k, d)
    | _ => none)

/-- The keys of all save submissions of a trace. -/
def saveKeys (evs : List Event) : List String :=
  (savesOf evs).map (fun p => p.1)

/-- A flat key-to-payload view of the backend store, for replaying a
trace's effects. -/
def applyEvent (st : List (String × List Nat)) : Event →
    List (String × List Nat)
  | Event.deleteSubmit k => st.filter (fun p => p.1 != k)
  | Event.saveSubmit k d => st.filter (fun p => p.1 != k) ++ [(k, d)]
  | _ => st

/-- Replay a trace's store mutations over a flat store state. -/
def applyEvents (st : List (String × List Nat)) (evs : List Event) :
    List (String × List Nat) :=
  evs.foldl applyEvent st

/-- Lookup of a key in the flat store view. -/
def lookupS (st : List (String × List Nat)) (k : String) :
    Option (List Nat) :=
  (st.find? (fun p => p.1 == k)).map (fun p => p.2)

/-- Contents of a local directory: a map from relative file paths to
payloads. -/
abbrev LocalDir := List (String × List Nat)

/-- Filesystem operations performed by the local extraction path. -/
inductive FsOp where
  | rmtree (path : String)
  | makedirs (path : String)
  | extractAll (path : String) (entries : List Entry)
  | logInfoL (fmt : String) (arg : String)
  | logErrorL (fmt : String) (arg : String)
deriving DecidableEq

/-- `delete_path(path)`: remove the tree only when `os.path.exists`
holds; the result is the directory state at `path` and the operations
performed. -/
def delete_path (path : String) (st : Option LocalDir) :
    Option LocalDir × List FsOp :=
  if st.isSome then (none, [FsOp.rmtree path]) else (st, [])

/-- Write one file into a directory, overwriting any file of the same
name. -/
def writeFile (d : LocalDir) (k : String) (v : List Nat) : LocalDir :=
  d.filter (fun p => p.1 != k) ++ [(k, v)]

/-- `ZipFile.extractall`: write every entry into the directory in
listing order, overwriting name clashes and keeping unrelated files. -/
def extractAllDir (d : LocalDir) (es : List Entry) : LocalDir :=
  es.foldl (fun acc e => writeFile acc e.path e.data) d

/-- `unpack_package_local_path(package, path)`: always delete the
destination tree and recreate it empty (`os.makedirs` never sees an
existing path here because `delete_path` just removed it); then either
log that the input is not a valid zip and stop, or extract every entry
into the fresh directory. -/
def unpack_package_local_path (pkg : Package) (path : String)
    (st0 : Option LocalDir) : Option LocalDir × List FsOp :=
  let cleaned := delete_path path st0
  let made : LocalDir := []
  if !pkg.isZip then
    (some made,
     cleaned.2 ++ [FsOp.makedirs path,
                   FsOp.logErrorL "%s is not a valid zip" pkg.name])
  else
    (some (extractAllDir made pkg.entries),
     cleaned.2 ++ [FsOp.makedirs path,
                   FsOp.logInfoL "Extracting all the files now from %s" pkg.name,
                   FsOp.extractAll path pkg.entries])

/-- `MAX_WORKERS = getattr(settings, "THREADPOOLEXECUTOR_MAX_WORKERS", 10)`:
the configured value when the setting is present, else 10. -/
def MAX_WORKERS (cfg : Option Nat) : Nat :=
  cfg.getD 10

/-- A scheduling step of the worker pool: a submitted task starts
running on a slot, or a running task finishes. -/
inductive SchedStep where
  | start
  | finish
deriving DecidableEq

/-- Modelled from the spec: the WorkerPool contract, `concurrent.futures`
`ThreadPoolExecutor` being outside this repository — a bounded set of
concurrent execution slots in which a task may only start while fewer
than `maxW` tasks are in flight, and only in-flight tasks finish.
`inFlight` is the number of tasks currently running. -/
def validExec (maxW : Nat) : Nat → List SchedStep → Bool
  | _, [] => true
  | inFlight, SchedStep.start :: rest =>
      decide (inFlight < maxW) && validExec maxW (inFlight + 1) rest
  | inFlight, SchedStep.finish :: rest =>
      decide (0 < inFlight) && validExec maxW (inFlight - 1) rest

/-- The number of tasks in flight after a list of scheduling steps,
starting from `n` in flight. -/
def inFlightAfter (n : Nat) : List SchedStep → Nat
  | [] => n
  | SchedStep.start :: rest => inFlightAfter (n + 1) rest
  | SchedStep.finish :: rest => inFlightAfter (n - 1) rest

/-- A character strictly inside a list stops `takeWhile` regardless of
what follows it. -/
theorem takeWhile_append_stop (p : Char → Bool) (c : Char) (hc : p c = false) :
    ∀ (xs ys : List Char), (xs ++ c :: ys).takeWhile p = xs.takeWhile p
  | [], ys => by simp [List.takeWhile, hc]
  | x :: xs, ys => by
      simp only [List.cons_append, List.takeWhile_cons]
      cases hx : p x with
      | true => simp [takeWhile_append_stop p c hc xs ys]
      | false => simp

/-- `pyBasename` only depends on the character data of the string. -/
theorem pyBasename_data_eq (a b : String) (h : a.data = b.data) :
    pyBasename a = pyBasename b := by
  unfold pyBasename; rw [h]

/-- Appending after a string that ends in a slash does not change the
basename of the appended part. -/
theorem pyBasename_append_slash (a b : String)
    (h : a.data.getLast? = some '/') : pyBasename (a ++ b) = pyBasename b := by
  unfold pyBasename
  rw [String.data_append, List.reverse_append]
  rw [List.getLast?_eq_head?_reverse] at h
  rcases ha : a.data.reverse with _ | ⟨c, t⟩
  · rw [ha] at h; simp at h
  · rw [ha] at h
    simp only [List.head?_cons, Option.some.injEq] at h
    subst h
    rw [takeWhile_append_stop _ '/' (by decide)]

/-- The basename of a joined path is the basename of its second
component: joining a name under a prefix never changes its basename. -/
theorem pyBasename_join (a b : String) :
    pyBasename (pyJoin a b) = pyBasename b := by
  unfold pyJoin
  split
  · rfl
  · split
    · next h2 =>
      rcases h2 with h2 | h2
      · apply pyBasename_data_eq
        rw [String.data_append, h2, List.nil_append]
      · exact pyBasename_append_slash a b h2
    · have h3 : a ++ "/" ++ b = (a ++ "/") ++ b := by rw [String.append_assoc]
      rw [h3]
      apply pyBasename_append_slash
      rw [String.data_append]
      simp [String.data, List.getLast?_append]

/-- `badBasename` of a joined path is decided by the second component
alone. -/
theorem badBasename_join (a b : String) :
    badBasename (pyJoin a b) = badBasename b := by
  unfold badBasename
  rw [pyBasename_join]

/-- Events the deletion recursion can emit: everything except a save
submission and an error log. -/
def benignDc : Event → Bool
  | Event.saveSubmit _ _ => false
  | Event.logError _ _ => false
  | _ => true

mutual

/-- Every event of the deletion recursion over a store node is benign:
it never saves and never logs an error. -/
def dcTree_benign (maxW : Nat) (path : String) :
    (t : STree) → ∀ e ∈ dcTree maxW path t, benignDc e = true
  | STree.node ds fs => by
      intro e he
      rw [dcTree] at he
      simp only [List.mem_cons, List.mem_append, List.mem_map] at he
      rcases he with rfl | rfl | rfl | rfl | ⟨f, hf, rfl⟩ | rfl | h
      · rfl
      · rfl
      · rfl
      · rfl
      · rfl
      · rfl
      · exact dcDirs_benign maxW path ds e h

/-- Every event of the deletion recursion over a subdirectory list is
benign. -/
def dcDirs_benign (maxW : Nat) (path : String) :
    (ds : DirList) → ∀ e ∈ dcDirs maxW path ds, benignDc e = true
  | DirList.nil => by intro e he; rw [dcDirs] at he; cases he
  | DirList.cons name t rest => by
      intro e he
      rw [dcDirs] at he
      rcases List.mem_append.1 he with h | h
      · exact dcTree_benign maxW (pyJoin path name) t e h
      · exact dcDirs_benign maxW path rest e h

end

mutual

/-- Every file key under the prefix tree receives a delete submission
in the deletion recursion's trace. -/
def dcTree_deletes (maxW : Nat) (path : String) :
    (t : STree) → ∀ k ∈ fileKeysT path t,
      Event.deleteSubmit k ∈ dcTree maxW path t
  | STree.node ds fs => by
      intro k hk
      rw [fileKeysT] at hk
      rw [dcTree]
      refine List.mem_cons_of_mem _ (List.mem_cons_of_mem _
        (List.mem_cons_of_mem _ (List.mem_cons_of_mem _ ?_)))
      rcases List.mem_append.1 hk with h | h
      · refine List.mem_append.2 (Or.inl ?_)
        rcases List.mem_map.1 h with ⟨f, hf, hfk⟩
        exact List.mem_map.2 ⟨f, hf, by rw [hfk]⟩
      · refine List.mem_append.2 (Or.inr (List.mem_cons_of_mem _ ?_))
        exact dcDirs_deletes maxW path ds k h

/-- Every file key under a subdirectory list receives a delete
submission. -/
def dcDirs_deletes (maxW : Nat) (path : String) :
    (ds : DirList) → ∀ k ∈ fileKeysD path ds,
      Event.deleteSubmit k ∈ dcDirs maxW path ds
  | DirList.nil => by intro k hk; rw [fileKeysD] at hk; cases hk
  | DirList.cons name t rest => by
      intro k hk
      rw [fileKeysD] at hk
      rw [dcDirs]
      rcases List.mem_append.1 hk with h | h
      · exact List.mem_append.2
          (Or.inl (dcTree_deletes maxW (pyJoin path name) t k h))
      · exact List.mem_append.2 (Or.inr (dcDirs_deletes maxW path rest k h))

end

/-- A trace of benign events contains no save submission. -/
theorem savesOf_eq_nil_of_benign :
    ∀ (l : List Event), (∀ e ∈ l, benignDc e = true) → savesOf l = []
  | [], _ => rfl
  | e :: l, h => by
      have he := h e (List.mem_cons_self e l)
      have hl := savesOf_eq_nil_of_benign l (fun x hx => h x (List.mem_cons_of_mem e hx))
      cases e <;> simp_all [savesOf, List.filterMap_cons, benignDc]

/-- `savesOf` distributes over trace concatenation. -/
theorem savesOf_append (l1 l2 : List Event) :
    savesOf (l1 ++ l2) = savesOf l1 ++ savesOf l2 := by
  unfold savesOf
  exact List.filterMap_append l1 l2 _

/-- A save submission is in a trace exactly when its key-payload pair
is reported by `savesOf`. -/
theorem mem_savesOf (evs : List Event) (k : String) (d : List Nat) :
    (k, d) ∈ savesOf evs ↔ Event.saveSubmit k d ∈ evs := by
  unfold savesOf
  rw [List.mem_filterMap]
  constructor
  · rintro ⟨e, he, hs⟩
    cases e <;> simp_all
  · intro h
    exact ⟨Event.saveSubmit k d, h, rfl⟩

/-- The save submissions of the upload loop, in order: one per manifest
name surviving the basename filter, keyed by the joined path and
carrying the bytes read from the archive for that name. -/
theorem savesOf_cloudSaves (pkg : Package) (path : String) :
    savesOf (cloudSaves pkg path) =
      ((namelist pkg).filter (fun n => !badBasename (pyJoin path n))).map
        (fun n => (pyJoin path n, readByName pkg n)) := by
  unfold cloudSaves
  induction namelist pkg with
  | nil => rfl
  | cons n l ih =>
      rw [List.filterMap_cons, List.filter_cons]
      cases hb : badBasename (pyJoin path n) with
      | true => simpa [hb, savesOf] using ih
      | false =>
          rw [if_neg (by simp [hb])]
          simpa [hb, savesOf, List.filterMap_cons] using ih

/-- Replaying events that never save to key `k` cannot bring `k` into
existence. -/
theorem lookupS_applyEvents_none (k : String) :
    ∀ (evs : List Event) (st : List (String × List Nat)),
      (∀ d, Event.saveSubmit k d ∉ evs) → lookupS st k = none →
      lookupS (applyEvents st evs) k = none
  | [], st, _, h0 => h0
  | e :: evs, st, hs, h0 => by
      rw [applyEvents, List.foldl_cons]
      refine lookupS_applyEvents_none k evs (applyEvent st e)
        (fun d hd => hs d (List.mem_cons_of_mem e hd)) ?_
      unfold lookupS at h0 ⊢
      rw [Option.map_eq_none', List.find?_eq_none] at h0 ⊢
      cases e with
      | deleteSubmit k2 =>
          intro p hp
          exact h0 p (List.mem_of_mem_filter hp)
      | saveSubmit k2 d =>
          simp only [applyEvent]
          intro p hp
          rcases List.mem_append.1 hp with hp1 | hp1
          · exact h0 p (List.mem_of_mem_filter hp1)
          · have hk2 : k2 ≠ k := fun h => hs d (h ▸ List.mem_cons_self _ _)
            have hpk : p = (k2, d) := List.mem_singleton.1 hp1
            subst hpk
            simpa using hk2
      | existsQ a b => exact fun p hp => h0 p hp
      | listdirQ a => exact fun p hp => h0 p hp
      | logInfo a b => exact fun p hp => h0 p hp
      | logError a b => exact fun p hp => h0 p hp
      | poolOpen a => exact fun p hp => h0 p hp
      | poolDrain => exact fun p hp => h0 p hp

/-- After replaying a trace that deletes key `k` and never saves to it,
`k` is absent from the store. -/
theorem lookupS_applyEvents_deleted (k : String) :
    ∀ (evs : List Event) (st : List (String × List Nat)),
      Event.deleteSubmit k ∈ evs → (∀ d, Event.saveSubmit k d ∉ evs) →
      lookupS (applyEvents st evs) k = none
  | [], _, hd, _ => absurd hd (List.not_mem_nil _)
  | e :: evs, st, hd, hs => by
      rw [applyEvents, List.foldl_cons]
      rcases List.mem_cons.1 hd with he | he
      · refine lookupS_applyEvents_none k evs (applyEvent st e)
          (fun d hdm => hs d (List.mem_cons_of_mem e hdm)) ?_
        subst he
        unfold lookupS
        rw [Option.map_eq_none', List.find?_eq_none]
        simp only [applyEvent]
        intro p hp
        have := List.of_mem_filter hp
        simpa using this
      · exact lookupS_applyEvents_deleted k evs (applyEvent st e) he
          (fun d hdm => hs d (List.mem_cons_of_mem e hdm))

/-- In any valid execution of the bounded worker pool, the number of
in-flight tasks never exceeds the bound. -/
theorem validExec_bound (maxW : Nat) :
    ∀ (l : List SchedStep) (n : Nat), validExec maxW n l = true →
      n ≤ maxW → ∀ i, inFlightAfter n (l.take i) ≤ maxW
  | [], n, _, hn, i => by simpa [inFlightAfter] using hn
  | s :: l, n, hv, hn, 0 => by simpa [inFlightAfter] using hn
  | SchedStep.start :: l, n, hv, hn, i + 1 => by
      rw [validExec, Bool.and_eq_true, decide_eq_true_eq] at hv
      rw [List.take_succ_cons, inFlightAfter]
      exact validExec_bound maxW l (n + 1) hv.2 hv.1 i
  | SchedStep.finish :: l, n, hv, hn, i + 1 => by
      rw [validExec, Bool.and_eq_true, decide_eq_true_eq] at hv
      rw [List.take_succ_cons, inFlightAfter]
      exact validExec_bound maxW l (n - 1) hv.2 (le_trans (Nat.sub_le n 1) hn) i

/-- Every event the deletion phase emits is benign, whether or not the
prefix exists. -/
theorem dc_benign (maxW : Nat) (path : String) (store : Option STree) :
    ∀ e ∈ delete_existing_files_cloud maxW path store, benignDc e = true := by
  cases store with
  | none =>
      intro e he
      rw [delete_existing_files_cloud] at he
      rcases List.mem_singleton.1 he with rfl
      rfl
  | some t => exact dcTree_benign maxW path t

/-- Every event of the upload loop is a save submission. -/
theorem mem_cloudSaves_shape (pkg : Package) (path : String) (e : Event)
    (he : e ∈ cloudSaves pkg path) : ∃ k d, e = Event.saveSubmit k d := by
  rcases List.mem_filterMap.1 he with ⟨n, _, hfn⟩
  by_cases hb : badBasename (pyJoin path n) = true
  · rw [if_pos hb] at hfn; cases hfn
  · rw [if_neg hb] at hfn
    exact ⟨pyJoin path n, readByName pkg n, (Option.some.injEq _ _ ▸ hfn).symm⟩

/-- Any save submission of the upload loop comes from a manifest name
that passed the basename filter, keyed by that name joined under the
prefix. -/
theorem mem_cloudSaves (pkg : Package) (path : String) (k : String)
    (d : List Nat) (h : Event.saveSubmit k d ∈ cloudSaves pkg path) :
    ∃ n, n ∈ namelist pkg ∧ badBasename (pyJoin path n) = false ∧
      k = pyJoin path n := by
  rcases List.mem_filterMap.1 h with ⟨n, hn, hfn⟩
  by_cases hb : badBasename (pyJoin path n) = true
  · rw [if_pos hb] at hfn; cases hfn
  · rw [if_neg hb] at hfn
    refine ⟨n, hn, Bool.eq_false_iff.2 hb, ?_⟩
    have := Option.some.injEq _ _ ▸ hfn
    cases this
    rfl

/-- A valid package's cloud trace is the deletion phase followed by one
worker-pool scope containing the upload submissions. -/
theorem unpack_cloud_valid (maxW : Nat) (pkg : Package) (store : Option STree)
    (path : String) (hzip : pkg.isZip = true) :
    unpack_and_upload_on_cloud maxW pkg store path =
      delete_existing_files_cloud maxW path store
        ++ Event.poolOpen maxW :: (cloudSaves pkg path ++ [Event.poolDrain]) := by
  rw [unpack_and_upload_on_cloud, hzip]
  rfl

/-- The scenario archive of the spec's traversal test: three entries,
one of which climbs out of the destination prefix. -/
def evilPkg : Package :=
  ⟨"evil.h5p", true,
   [⟨"index.html", [0]⟩, ⟨"../evil.js", [1]⟩, ⟨"assets/x.png", [2]⟩]⟩

/-- C1: the claim fails on the code.  For the archive with entries
`["index.html", "../evil.js", "assets/x.png"]` extracted under prefix
`"h5p"`, `unpack_and_upload_on_cloud` submits a `storage.save` for all
three entries, including `"h5p/../evil.js"`: the basename of the joined
path is `"evil.js"`, which passes the `{"", ".", ".."}` filter, so the
traversal entry is neither skipped nor logged. -/
theorem c1_traversal_entry_is_written :
    savesOf (unpack_and_upload_on_cloud 10 evilPkg none "h5p") =
      [("h5p/index.html", [0]), ("h5p/../evil.js", [1]),
       ("h5p/assets/x.png", [2])]
    ∧ Event.saveSubmit "h5p/../evil.js" [1]
        ∈ unpack_and_upload_on_cloud 10 evilPkg none "h5p"
    ∧ pyBasename (pyJoin "h5p" "../evil.js") = "evil.js" := by
  refine ⟨by decide, by decide, by decide⟩

/-- C10: when the destination path does not exist, `delete_path` is a
no-op (the removal is guarded by the existence check, so no `rmtree` is
issued that could raise), and `unpack_package_local_path` on a fresh
destination proceeds directly to creating the directory: its first
filesystem operation is `os.makedirs`. -/
theorem c10_delete_path_noop_fresh (pkg : Package) (path : String) :
    delete_path path none = (none, [])
    ∧ (unpack_package_local_path pkg path none).2.head?
        = some (FsOp.makedirs path) := by
  constructor
  · rfl
  · rw [unpack_package_local_path]
    cases h : pkg.isZip <;> simp [h, delete_path]

/-- C6: on an input that is not a valid zip, `unpack_package_local_path`
first destroys any prior contents of the destination (an `rmtree` when
the path existed), recreates it as an empty directory, then detects the
invalid archive, logs an error naming the input, and stops: the
destination is left as an empty directory and no extraction happens,
so prior contents are lost even though the archive was invalid. -/
theorem c6_local_invalid_zip_clears_destination (pkg : Package)
    (path : String) (st0 : Option LocalDir) (h : pkg.isZip = false) :
    (unpack_package_local_path pkg path st0).1 = some []
    ∧ (unpack_package_local_path pkg path st0).2
        = (if st0.isSome then [FsOp.rmtree path] else [])
          ++ [FsOp.makedirs path,
              FsOp.logErrorL "%s is not a valid zip" pkg.name] := by
  rw [unpack_package_local_path, delete_path]
  cases hs : st0.isSome <;> simp [h, hs]

/-- Witness for C6 at a concrete invalid package and a destination that
already holds a file. -/
theorem c6_witness :
    Package.isZip ⟨"junk.bin", false, []⟩ = false
    ∧ (unpack_package_local_path ⟨"junk.bin", false, []⟩ "dest"
        (some [("old.txt", [9])])).1 = some [] := by
  refine ⟨rfl, ?_⟩
  exact (c6_local_invalid_zip_clears_destination ⟨"junk.bin", false, []⟩
    "dest" (some [("old.txt", [9])]) rfl).1

/-- C7: running `unpack_package_local_path` twice in succession on the
same destination with two valid archives leaves exactly the second
archive's contents: the second run removes the first run's directory
tree wholesale and extracts the second archive into a fresh empty
directory, so nothing of the first archive survives (full overwrite,
no merge). -/
theorem c7_local_double_extract_overwrites (pkg1 pkg2 : Package)
    (path : String) (st0 : Option LocalDir)
    (h1 : pkg1.isZip = true) (h2 : pkg2.isZip = true) :
    (unpack_package_local_path pkg2 path
        (unpack_package_local_path pkg1 path st0).1).1
      = some (extractAllDir [] pkg2.entries)
    ∧ (unpack_package_local_path pkg2 path
        (unpack_package_local_path pkg1 path st0).1).2
      = [FsOp.rmtree path, FsOp.makedirs path,
         FsOp.logInfoL "Extracting all the files now from %s" pkg2.name,
         FsOp.extractAll path pkg2.entries] := by
  have hfst : (unpack_package_local_path pkg1 path st0).1
      = some (extractAllDir [] pkg1.entries) := by
    rw [unpack_package_local_path]
    simp [h1]
  rw [hfst, unpack_package_local_path, delete_path]
  simp [h2]

/-- Witness for C7 at two concrete one-entry archives. -/
theorem c7_witness :
    Package.isZip ⟨"a.h5p", true, [⟨"a.txt", [1]⟩]⟩ = true
    ∧ (unpack_package_local_path ⟨"b.h5p", true, [⟨"b.txt", [2]⟩]⟩ "dest"
        (unpack_package_local_path ⟨"a.h5p", true, [⟨"a.txt", [1]⟩]⟩ "dest"
          none).1).1
      = some [("b.txt", [2])] := by
  refine ⟨rfl, ?_⟩
  exact (c7_local_double_extract_overwrites ⟨"a.h5p", true, [⟨"a.txt", [1]⟩]⟩
    ⟨"b.h5p", true, [⟨"b.txt", [2]⟩]⟩ "dest" none rfl rfl).1

/-- C3: on an input that is not a valid zip, `unpack_and_upload_on_cloud`
makes no store call at all — no exists, no listdir, no delete, no save —
and its only action is logging an error that names the input; the
operation aborts with no side effects. -/
theorem c3_invalid_zip_no_store_calls (maxW : Nat) (pkg : Package)
    (store : Option STree) (path : String) (h : pkg.isZip = false) :
    (∀ e ∈ unpack_and_upload_on_cloud maxW pkg store path,
        isStoreCall e = false)
    ∧ Event.logError "%s is not a valid zip" pkg.name
        ∈ unpack_and_upload_on_cloud maxW pkg store path := by
  have htr : unpack_and_upload_on_cloud maxW pkg store path
      = [Event.logError "%s is not a valid zip" pkg.name] := by
    rw [unpack_and_upload_on_cloud, h]
    rfl
  rw [htr]
  constructor
  · intro e he
    rcases List.mem_singleton.1 he with rfl
    rfl
  · exact List.mem_singleton.2 rfl

/-- Witness for C3 at a concrete non-zip input. -/
theorem c3_witness :
    Package.isZip ⟨"corrupt.bin", false, [⟨"x", [1]⟩]⟩ = false
    ∧ Event.logError "%s is not a valid zip" "corrupt.bin"
        ∈ unpack_and_upload_on_cloud 10 ⟨"corrupt.bin", false, [⟨"x", [1]⟩]⟩
            (some (STree.node DirList.nil [("y", [2])])) "p" := by
  refine ⟨rfl, ?_⟩
  exact (c3_invalid_zip_no_store_calls 10 ⟨"corrupt.bin", false, [⟨"x", [1]⟩]⟩
    (some (STree.node DirList.nil [("y", [2])])) "p" rfl).2

/-- C2: for every archive entry whose basename is empty, `"."` or
`".."`, `unpack_and_upload_on_cloud` never submits a `storage.save` for
that entry's destination key, and the skip is silent: a valid archive's
whole trace contains no error log. -/
theorem c2_bad_basename_never_saved (maxW : Nat) (pkg : Package)
    (store : Option STree) (path : String) (ent : Entry)
    (_hent : ent ∈ pkg.entries) (hzip : pkg.isZip = true)
    (hb : pyBasename ent.path = "" ∨ pyBasename ent.path = "."
          ∨ pyBasename ent.path = "..") :
    (∀ d, Event.saveSubmit (pyJoin path ent.path) d
        ∉ unpack_and_upload_on_cloud maxW pkg store path)
    ∧ (∀ fmt arg, Event.logError fmt arg
        ∉ unpack_and_upload_on_cloud maxW pkg store path) := by
  have hbadent : badBasename ent.path = true := by
    rcases hb with hb | hb | hb <;> simp [badBasename, hb]
  rw [unpack_cloud_valid maxW pkg store path hzip]
  constructor
  · intro d hmem
    rcases List.mem_append.1 hmem with hmem | hmem
    · exact absurd (dc_benign maxW path store _ hmem) (by simp [benignDc])
    · rcases List.mem_cons.1 hmem with hmem | hmem
      · cases hmem
      · rcases List.mem_append.1 hmem with hmem | hmem
        · rcases mem_cloudSaves pkg path _ d hmem with ⟨n, _, hgood, hk⟩
          have : badBasename (pyJoin path n) = badBasename ent.path := by
            rw [← hk, badBasename_join]
          rw [hgood, hbadent] at this
          cases this
        · rcases List.mem_singleton.1 hmem with h
          cases h
  · intro fmt arg hmem
    rcases List.mem_append.1 hmem with hmem | hmem
    · exact absurd (dc_benign maxW path store _ hmem) (by simp [benignDc])
    · rcases List.mem_cons.1 hmem with hmem | hmem
      · cases hmem
      · rcases List.mem_append.1 hmem with hmem | hmem
        · rcases mem_cloudSaves_shape pkg path _ hmem with ⟨k, d, hkd⟩
          cases hkd
        · rcases List.mem_singleton.1 hmem with h
          cases h

/-- Witness for C2 at a concrete archive containing a dot-dot entry. -/
theorem c2_witness :
    (⟨"sub/..", [5]⟩ : Entry) ∈ Package.entries ⟨"a.h5p", true, [⟨"sub/..", [5]⟩]⟩
    ∧ pyBasename "sub/.." = ".."
    ∧ ∀ d, Event.saveSubmit (pyJoin "p" "sub/..") d
        ∉ unpack_and_upload_on_cloud 10 ⟨"a.h5p", true, [⟨"sub/..", [5]⟩]⟩
            none "p" := by
  refine ⟨by decide, by decide, ?_⟩
  exact (c2_bad_basename_never_saved 10 ⟨"a.h5p", true, [⟨"sub/..", [5]⟩]⟩
    none "p" ⟨"sub/..", [5]⟩ (by decide) rfl (Or.inr (Or.inr (by decide)))).1

/-- The manifest names that survive the basename sanitization. -/
def survivors (pkg : Package) (path : String) : List String :=
  (namelist pkg).filter (fun n => !badBasename (pyJoin path n))

/-- C4: for a valid archive, the save submissions of
`unpack_and_upload_on_cloud` are exactly one per surviving manifest
name, in order — none duplicated, none dropped — each keyed by the name
joined under the prefix and carrying exactly the bytes read from the
archive for that name (round-trip fidelity); in particular the number
of submitted write tasks equals the number of surviving entries. -/
theorem c4_one_save_per_survivor (maxW : Nat) (pkg : Package)
    (store : Option STree) (path : String) (hzip : pkg.isZip = true) :
    savesOf (unpack_and_upload_on_cloud maxW pkg store path)
      = (survivors pkg path).map
          (fun n => (pyJoin path n, readByName pkg n))
    ∧ (savesOf (unpack_and_upload_on_cloud maxW pkg store path)).length
      = (survivors pkg path).length := by
  have hmain : savesOf (unpack_and_upload_on_cloud maxW pkg store path)
      = (survivors pkg path).map
          (fun n => (pyJoin path n, readByName pkg n)) := by
    rw [unpack_cloud_valid maxW pkg store path hzip, savesOf_append]
    rw [savesOf_eq_nil_of_benign _ (dc_benign maxW path store)]
    have hcons : savesOf (Event.poolOpen maxW
        :: (cloudSaves pkg path ++ [Event.poolDrain]))
        = savesOf (cloudSaves pkg path ++ [Event.poolDrain]) := by
      rw [savesOf, List.filterMap_cons]
      rfl
    rw [List.nil_append, hcons, savesOf_append, savesOf_cloudSaves]
    have hdrain : savesOf [Event.poolDrain] = [] := rfl
    rw [hdrain, List.append_nil]
    rfl
  exact ⟨hmain, by rw [hmain, List.length_map]⟩

/-- Witness for C4 at a concrete archive in which one of three entries
is filtered out. -/
theorem c4_witness :
    Package.isZip ⟨"a.h5p", true,
      [⟨"keep.txt", [1]⟩, ⟨"sub/", [2]⟩, ⟨"sub/deep.txt", [3]⟩]⟩ = true
    ∧ savesOf (unpack_and_upload_on_cloud 10
        ⟨"a.h5p", true,
         [⟨"keep.txt", [1]⟩, ⟨"sub/", [2]⟩, ⟨"sub/deep.txt", [3]⟩]⟩
        none "p")
      = [("p/keep.txt", [1]), ("p/sub/deep.txt", [3])] := by
  refine ⟨rfl, ?_⟩
  rw [(c4_one_save_per_survivor 10
    ⟨"a.h5p", true,
     [⟨"keep.txt", [1]⟩, ⟨"sub/", [2]⟩, ⟨"sub/deep.txt", [3]⟩]⟩
    none "p" rfl).1]
  decide

/-- C5: files existing under the destination prefix before a valid
extraction do not survive it.  Every file key the store reports under
the prefix receives a delete during the deletion phase, and all deletes
are replayed before any upload, so after the whole trace is applied a
prior key is present only if some entry of the new archive saved to
that same key. -/
theorem c5_prior_files_removed (maxW : Nat) (pkg : Package) (tree : STree)
    (path : String) (flat0 : List (String × List Nat)) (k : String)
    (hzip : pkg.isZip = true) (hk : k ∈ fileKeysT path tree)
    (hns : k ∉ saveKeys (unpack_and_upload_on_cloud maxW pkg (some tree) path)) :
    lookupS (applyEvents flat0
      (unpack_and_upload_on_cloud maxW pkg (some tree) path)) k = none := by
  have hd : Event.deleteSubmit k
      ∈ unpack_and_upload_on_cloud maxW pkg (some tree) path := by
    rw [unpack_cloud_valid maxW pkg (some tree) path hzip]
    exact List.mem_append_left _ (dcTree_deletes maxW path tree k hk)
  have hs : ∀ d, Event.saveSubmit k d
      ∉ unpack_and_upload_on_cloud maxW pkg (some tree) path := by
    intro d hmem
    exact hns (List.mem_map.2 ⟨(k, d), (mem_savesOf _ k d).2 hmem, rfl⟩)
  exact lookupS_applyEvents_deleted k _ flat0 hd hs

/-- Witness for C5: a store holding one prior file under the prefix, an
archive that writes a different key, and the prior key gone afterwards. -/
theorem c5_witness :
    ("p/old.txt" : String) ∈ fileKeysT "p" (STree.node DirList.nil [("old.txt", [7])])
    ∧ ("p/old.txt" : String) ∉ saveKeys (unpack_and_upload_on_cloud 10
        ⟨"a.h5p", true, [⟨"new.txt", [1]⟩]⟩
        (some (STree.node DirList.nil [("old.txt", [7])])) "p")
    ∧ lookupS (applyEvents [("p/old.txt", [7])]
        (unpack_and_upload_on_cloud 10 ⟨"a.h5p", true, [⟨"new.txt", [1]⟩]⟩
          (some (STree.node DirList.nil [("old.txt", [7])])) "p"))
        "p/old.txt" = none := by
  refine ⟨by decide, by decide, ?_⟩
  exact c5_prior_files_removed 10 ⟨"a.h5p", true, [⟨"new.txt", [1]⟩]⟩
    (STree.node DirList.nil [("old.txt", [7])]) "p" [("p/old.txt", [7])]
    "p/old.txt" rfl (by decide) (by decide)

/-- C8: the deletion recursion is strictly depth-sequential and
best-effort.  When the prefix does not exist the call performs only the
existence query — a no-op, not an error.  When it exists, the trace of
a directory node splits as a segment `pre` followed by the pool drain
and then the subdirectory recursion: `pre` contains the single
worker-pool scope opening and the delete submission of every one of the
directory's own files, contains no drain (the sibling deletes share one
concurrent pool scope), and its only store calls are the node's own
existence query, its single listing, and its own files' deletes — so
subdirectories are processed only after all of the directory's own
delete tasks have been submitted. -/
theorem c8_depth_sequential_deletion (maxW : Nat) (path : String)
    (ds : DirList) (fs : List (String × List Nat)) :
    delete_existing_files_cloud maxW path none = [Event.existsQ path false]
    ∧ ∃ pre,
        delete_existing_files_cloud maxW path (some (STree.node ds fs))
          = pre ++ Event.poolDrain :: dcDirs maxW path ds
        ∧ Event.poolOpen maxW ∈ pre
        ∧ Event.poolDrain ∉ pre
        ∧ (∀ f ∈ fs, Event.deleteSubmit (pyJoin path f.1) ∈ pre)
        ∧ (∀ e ∈ pre, isStoreCall e = true →
            e = Event.existsQ path true ∨ e = Event.listdirQ path
            ∨ ∃ f ∈ fs, e = Event.deleteSubmit (pyJoin path f.1)) := by
  refine ⟨rfl, [Event.existsQ path true,
    Event.logInfo "%s path is being deleted on cloud" path,
    Event.listdirQ path, Event.poolOpen maxW]
    ++ fs.map (fun f => Event.deleteSubmit (pyJoin path f.1)),
    ?_, ?_, ?_, ?_, ?_⟩
  · rw [delete_existing_files_cloud, dcTree, List.append_assoc]
    rfl
  · simp
  · intro hmem
    simp only [List.mem_append, List.mem_cons, List.mem_map] at hmem
    rcases hmem with (h | h | h | h | h) | ⟨f, _, h⟩ <;> cases h
  · intro f hf
    exact List.mem_append_right _ (List.mem_map.2 ⟨f, hf, rfl⟩)
  · intro e he hsc
    simp only [List.mem_append, List.mem_cons, List.mem_map] at he
    rcases he with (rfl | rfl | rfl | rfl | h) | ⟨f, hf, rfl⟩
    · exact Or.inl rfl
    · cases hsc
    · exact Or.inr (Or.inl rfl)
    · cases hsc
    · cases h
    · exact Or.inr (Or.inr ⟨f, hf, rfl⟩)

/-- Witness for C8 at a concrete two-level store tree. -/
theorem c8_witness :
    delete_existing_files_cloud 10 "p" none = [Event.existsQ "p" false]
    ∧ Event.deleteSubmit (pyJoin "p" "f")
        ∈ delete_existing_files_cloud 10 "p"
            (some (STree.node
              (DirList.cons "d" (STree.node DirList.nil [("g", [2])]) DirList.nil)
              [("f", [1])])) := by
  obtain ⟨h1, pre, heq, _, _, hdel, _⟩ :=
    c8_depth_sequential_deletion 10 "p"
      (DirList.cons "d" (STree.node DirList.nil [("g", [2])]) DirList.nil)
      [("f", [1])]
  refine ⟨h1, ?_⟩
  rw [heq]
  exact List.mem_append_left _ (hdel ("f", [1]) (by decide))

/-- C9: the default pool size is 10 (`THREADPOOLEXECUTOR_MAX_WORKERS`
absent), the upload pool of `unpack_and_upload_on_cloud` is opened with
exactly that bound, and in every valid execution of such a bounded pool
— including one processing a 100-entry archive — the number of write
tasks concurrently in flight never exceeds 10. -/
theorem c9_default_pool_bounds_in_flight (pkg : Package)
    (store : Option STree) (path : String) (hzip : pkg.isZip = true)
    (_hlen : pkg.entries.length = 100) (exec : List SchedStep)
    (hv : validExec (MAX_WORKERS none) 0 exec = true) :
    MAX_WORKERS none = 10
    ∧ Event.poolOpen (MAX_WORKERS none)
        ∈ unpack_and_upload_on_cloud (MAX_WORKERS none) pkg store path
    ∧ ∀ i, inFlightAfter 0 (exec.take i) ≤ 10 := by
  refine ⟨rfl, ?_, ?_⟩
  · rw [unpack_cloud_valid (MAX_WORKERS none) pkg store path hzip]
    exact List.mem_append_right _ (List.mem_cons_self _ _)
  · exact validExec_bound 10 exec 0 hv (by simp) 

/-- Witness for C9 at a concrete 100-entry archive and a concrete valid
pool execution. -/
theorem c9_witness :
    (Package.entries ⟨"big.h5p", true, List.replicate 100 ⟨"a.txt", [0]⟩⟩).length = 100
    ∧ validExec (MAX_WORKERS none) 0 [SchedStep.start, SchedStep.finish] = true
    ∧ MAX_WORKERS none = 10
    ∧ ∀ i, inFlightAfter 0 ([SchedStep.start, SchedStep.finish].take i) ≤ 10 := by
  have h := c9_default_pool_bounds_in_flight
    ⟨"big.h5p", true, List.replicate 100 ⟨"a.txt", [0]⟩⟩ none "p" rfl
    (by simp) [SchedStep.start, SchedStep.finish] (by decide)
  exact ⟨by simp, by decide, h.1, h.2.2⟩
